import Mathlib

/-!
Verification of the alpaka basic-test kernel (`src/test/basic/src/main.cpp`)
and the device-property record (`src/include/alpaka/core/DevProps.hpp`).

The kernel body `ExampleAcceleratedKernel::operator()` and the host-side
driver `profileAcceleratedExampleKernel` are embedded directly from the
source.  The alpaka core itself (Executor, barrier, atomics, memory manager,
index linearization) is not part of this snapshot of the repository: those
parts are modelled from the specification and are marked
`Modelled from the spec:` in their doc comments.

All `std::uint32_t` arithmetic is embedded as natural-number arithmetic
modulo `2^32`.
-/

namespace Alpaka

/-- The modulus of `std::uint32_t` arithmetic, `2^32`. -/
def M32 : Nat := 4294967296

/-- `uint32_t` addition: wraps modulo `2^32`. -/
def add32 (a b : Nat) : Nat := (a + b) % M32

/-- `uint32_t` subtraction: wraps modulo `2^32` on underflow. -/
def sub32 (a b : Nat) : Nat := (a + (M32 - b % M32)) % M32

/-- `uint32_t` multiplication: wraps modulo `2^32`. -/
def mul32 (a b : Nat) : Nat := (a * b) % M32

/-- The loop of main.cpp lines 74-78: `iSum1` starts at `uiIdxBlockKernelsLin + 1`
and accumulates `i` for `i` in `[0, TuiNumUselessWork)`, in `uint32_t`. -/
def iSum1 (w idx : Nat) : Nat := (List.range w).foldl add32 ((idx + 1) % M32)

/-- The loop of main.cpp lines 86-90: `iSum2` starts at `uiIdxBlockKernelsLin`
and subtracts `i` for `i` in `[0, TuiNumUselessWork)`, in `uint32_t`
(wrapping on underflow). -/
def iSum2 (w idx : Nat) : Nat := (List.range w).foldl sub32 (idx % M32)

/-- The exact total of either useless-work loop: `sum(0 .. w-1)`. -/
def gaussSum (w : Nat) : Nat := (List.range w).sum

/-- Contents of the extern shared region after the first phase
(main.cpp line 79, `pBlockShared[uiIdxBlockKernelsLin] = iSum1`): every unit
writes its own cell, so cell `j` holds `iSum1` of unit `j`.
The barrier at line 83 makes these writes visible to all units
(Modelled from the spec: barrier-separated phases compose functionally). -/
def sharedAfterWrite (w : Nat) : Nat → Nat := fun j => iSum1 w j

/-- Contents of the shared region after the mirror update and the second
barrier (main.cpp line 92, `pBlockShared[(uiNumKernelsInBlock-1)-uiIdxBlockKernelsLin] += iSum2`):
cell `j` is incremented, in `uint32_t`, by `iSum2` of its mirror unit `n-1-j`.
The mirror map is a bijection of `[0, n)`, so each cell has exactly one writer
in this phase. -/
def sharedAfterMirror (n w : Nat) : Nat → Nat :=
  fun j => add32 (sharedAfterWrite w j) (iSum2 w (n - 1 - j))

/-- The atomic accumulation of main.cpp lines 98-102: each unit with linear
index `idx > 0` performs `atomicOp<Add>(&pBlockShared[0], pBlockShared[idx])`.
`order` is the sequence in which the indivisible read-modify-write operations
hit cell 0 (Modelled from the spec: each `atomicOp` is indivisible, so any
interleaving is some sequential order of the additions).  Cells `idx > 0` are
not written during this phase, so each operand read returns the
post-mirror-phase value. -/
def atomicAccum (shared : Nat → Nat) (order : List Nat) : Nat :=
  order.foldl (fun acc idx => add32 acc (shared idx)) (shared 0)

/-- Shared region after the atomic phase and the barrier at line 105:
cell 0 holds the accumulated value, the other cells are unchanged. -/
def sharedAfterAtomic (n w : Nat) (order : List Nat) : Nat → Nat :=
  fun j => if j = 0 then atomicAccum (sharedAfterMirror n w) order
           else sharedAfterMirror n w j

/-- The order in which the kernel's atomic phase is specified to run its
operations when listed by unit index: units `1, …, n-1` (unit 0 skips the
atomic, main.cpp line 99). -/
def atomicUnits (n : Nat) : List Nat := List.range' 1 (n - 1)

/-- The value the master unit writes to `puiBlockRetVals[bId]` (main.cpp
line 113): `pBlockShared[0] * m_uiMult * uiMult2` in `uint32_t`. -/
def blockRetVal (n w mult mult2 : Nat) (order : List Nat) : Nat :=
  mul32 (mul32 (sharedAfterAtomic n w order 0) mult) mult2

/-- The global-memory stores issued by the unit with block-linear index `idx`
(main.cpp lines 107-114): only the master unit `idx = 0` stores, and it stores
exactly one element, `puiBlockRetVals[bId]`. Each store is an
(index, value) pair. -/
def globalWrites (n w mult mult2 bId idx : Nat) (order : List Nat) :
    List (Nat × Nat) :=
  if idx = 0 then [(bId, blockRetVal n w mult mult2 order)] else []

/-- Apply a list of (index, value) stores to a global memory state. -/
def applyWrites (g : Nat → Nat) : List (Nat × Nat) → (Nat → Nat)
  | [] => g
  | (i, v) :: rest => applyWrites (fun k => if k = i then v else g k) rest

/-- The host-side expected value of main.cpp line 200:
`static_cast<std::uint32_t>(n*n) * m_uiMult * uiMult2` in `uint32_t`
(the product `n*n` is formed in `std::size_t` and truncated to 32 bits;
truncating modulo `2^64` first gives the same residue modulo `2^32`). -/
def uiCorrectResult (n mult mult2 : Nat) : Nat :=
  mul32 (mul32 (n * n % M32) mult) mult2

/-- The host result vector before the kernel runs (main.cpp line 183):
`g` zero-initialized `uint32_t` values. -/
def hostInit (g : Nat) : List Nat := List.replicate g 0

/-- Modelled from the spec: the accelerator-global buffer after the
host-to-accelerator copy of main.cpp line 188 — a value copy, so index `i`
holds the host value at `i`. -/
def accAfterH2A (host : List Nat) : Nat → Nat := fun i => host.getD i 0

/-- Modelled from the spec: the Executor runs every block of the grid to
completion before `execute` returns, and block `b`'s master unit stores
`blockRetVal` at index `b`; indices outside the grid are untouched.
`orders b` is the interleaving of block `b`'s atomic phase. -/
def accAfterExecute (g n w mult mult2 : Nat) (orders : Nat → List Nat)
    (acc0 : Nat → Nat) : Nat → Nat :=
  fun b => if b < g then blockRetVal n w mult mult2 (orders b) else acc0 b

/-- Modelled from the spec: the accelerator-to-host copy-back of main.cpp
line 196 serializes with kernel completion, so the host vector receives the
post-execute accelerator values of all `g` elements. -/
def hostAfterCopyBack (g : Nat) (acc : Nat → Nat) : List Nat :=
  (List.range g).map acc

/-- The host-side check loop of main.cpp lines 202-210: the run is reported
correct iff every block's returned value equals `uiCorrectResult`. -/
def resultCorrect (vals : List Nat) (correct : Nat) : Bool :=
  vals.all (fun v => v == correct)

/-- The complete host pipeline of `profileAcceleratedExampleKernel`
(main.cpp lines 179-210) for a grid of `g` blocks of `n` units:
zero-init host vector, copy host-to-accelerator, execute, copy back. -/
def pipelineHostResult (g n w mult mult2 : Nat) (orders : Nat → List Nat) :
    List Nat :=
  hostAfterCopyBack g
    (accAfterExecute g n w mult mult2 orders (accAfterH2A (hostInit g)))

/-- The atomic-accumulation scenario of the spec: `n` units each perform
`atomicOp(Add, &shared[0], 1)` on a zero-initialized cell, in some
operation order. -/
def atomicAddOnes (order : List Nat) : Nat :=
  order.foldl (fun acc _ => add32 acc 1) 0

end Alpaka

namespace Alpaka

/-- A 3-component extent / coordinate vector (`alpaka::vec<3u>`). -/
structure Vec3 where
  x : Nat
  y : Nat
  z : Nat
deriving DecidableEq

/-- `alpaka::vec<3u>::prod()`: the product of the components. -/
def Vec3.prod (v : Vec3) : Nat := v.x * v.y * v.z

/-- Modelled from the spec: row-major linearization of a coordinate within
an extent, dimension 0 (x) fastest-varying. -/
def linearIdx (ext c : Vec3) : Nat := c.x + ext.x * (c.y + ext.y * c.z)

/-- Modelled from the spec: the Executor's enumeration of all unit
coordinates of one block — every coordinate in `[0, ext)` in row-major
order. -/
def enumCoords (ext : Vec3) : List Vec3 :=
  (List.range ext.z).flatMap (fun z =>
    (List.range ext.y).flatMap (fun y =>
      (List.range ext.x).map (fun x => ⟨x, y, z⟩)))

/-- The trait specialization of main.cpp lines 126-137:
`getBlockSharedExternMemSizeBytes` returns
`v3uiSizeBlockKernels.prod() * sizeof(std::uint32_t)` and ignores the
trailing kernel arguments `TArgs && ...`. -/
def getBlockSharedExternMemSizeBytes (v3uiSizeBlockKernels : Vec3)
    (args : List Nat) : Nat :=
  v3uiSizeBlockKernels.prod * 4

/-- The memory-space tag of a buffer (host vs. accelerator). -/
inductive MemorySpace where
  | Host : MemorySpace
  | Accelerator : MemorySpace
deriving DecidableEq

/-- The error kinds of the spec's error-handling design. A kernel-body
fault carries the failing block and unit coordinate
(Modelled from the spec: `KernelExecutionFailed` "carries the block/unit
coordinate that failed"). -/
inductive AlpakaError where
  | InvalidArgument : String → AlpakaError
  | OutOfMemory : AlpakaError
  | DeviceNotFound : AlpakaError
  | KernelExecutionFailed : Vec3 → Vec3 → String → AlpakaError
deriving DecidableEq

/-- The diagnostic report extracted from an execute failure: the failing
block coordinate, the failing unit coordinate, and the kernel-body fault
text — not a generic failure. `none` for non-kernel errors. -/
def failureReport : AlpakaError → Option (Vec3 × Vec3 × String)
  | AlpakaError.KernelExecutionFailed b u m => some (b, u, m)
  | _ => none

/-- The message printed for a propagated exception (main.cpp lines 293-302:
`e.what()` for a `std::exception`, a fixed text otherwise). -/
def errorMessage : AlpakaError → String
  | AlpakaError.InvalidArgument m => m
  | AlpakaError.OutOfMemory => "OutOfMemory"
  | AlpakaError.DeviceNotFound => "DeviceNotFound"
  | AlpakaError.KernelExecutionFailed _ _ m => m

/-- The `try`/`catch` of `main` (main.cpp lines 220-302): a completed body
returns 0 and prints no error; a propagated exception is printed and the
process returns 1, with no retry of the body. The result is the pair
(return code, printed error). -/
def mainRun (outcome : Except AlpakaError Unit) : Nat × Option String :=
  match outcome with
  | Except.ok _ => (0, none)
  | Except.error e => (1, some (errorMessage e))

/-- A memory buffer: a space tag and its byte content. -/
structure MemoryBuffer where
  space : MemorySpace
  bytes : List Nat

/-- Modelled from the spec: `memAlloc` yields a buffer of `sizeBytes` bytes
in the requested space. -/
def memAlloc (s : MemorySpace) (sizeBytes : Nat) : MemoryBuffer :=
  ⟨s, List.replicate sizeBytes 0⟩

/-- Modelled from the spec: `memCopy dst src sizeBytes` is a byte-exact
value copy serialized after any writer of the source; a `sizeBytes`
mismatched against either buffer's capacity fails with `InvalidArgument`. -/
def memCopy (dst src : MemoryBuffer) (sizeBytes : Nat) :
    Except AlpakaError MemoryBuffer :=
  if src.bytes.length = sizeBytes ∧ dst.bytes.length = sizeBytes then
    Except.ok ⟨dst.space, src.bytes⟩
  else
    Except.error (AlpakaError.InvalidArgument "sizeBytes mismatch")

/-- The device-property record of `src/include/alpaka/core/DevProps.hpp`
lines 40-50: name, multiprocessor count, maximum kernels per block, maximum
block extent, maximum grid extent, global memory size. The shared-memory
size and clock-frequency fields of the C++ source are commented out and are
not part of the record. -/
structure DevProps where
  m_sName : String
  m_uiMultiProcessorCount : Nat
  m_uiBlockKernelsCountMax : Nat
  m_v3uiBlockKernelsExtentsMax : Vec3
  m_v3uiGridBlocksExtentsMax : Vec3
  m_uiGlobalMemSizeBytes : Nat
deriving DecidableEq

/-- The six data fields of `DevProps`, as a plain tuple. -/
def DevProps.toTuple (p : DevProps) :
    String × Nat × Nat × Vec3 × Vec3 × Nat :=
  (p.m_sName, p.m_uiMultiProcessorCount, p.m_uiBlockKernelsCountMax,
   p.m_v3uiBlockKernelsExtentsMax, p.m_v3uiGridBlocksExtentsMax,
   p.m_uiGlobalMemSizeBytes)

/-- Rebuild a `DevProps` from the six-field tuple. -/
def DevProps.ofTuple (t : String × Nat × Nat × Vec3 × Vec3 × Nat) :
    DevProps :=
  ⟨t.1, t.2.1, t.2.2.1, t.2.2.2.1, t.2.2.2.2.1, t.2.2.2.2.2⟩

end Alpaka

namespace Alpaka

/-! ### Helper lemmas: uint32 arithmetic -/

theorem M32_pos : 0 < M32 := by simp [M32]

theorem add32_lt (a b : Nat) : add32 a b < M32 := Nat.mod_lt _ M32_pos

theorem sub32_lt (a b : Nat) : sub32 a b < M32 := Nat.mod_lt _ M32_pos

theorem add32_int (a b : Nat) :
    ((add32 a b : Nat) : Int) = ((a : Int) + (b : Int)) % (M32 : Int) := by
  simp [add32, Int.natCast_mod]

theorem sub32_int (a b : Nat) :
    ((sub32 a b : Nat) : Int) = ((a : Int) - (b : Int)) % (M32 : Int) := by
  have hle : b % M32 ≤ M32 := le_of_lt (Nat.mod_lt _ M32_pos)
  have : ((sub32 a b : Nat) : Int)
      = ((a : Int) + ((M32 : Int) - (b : Int) % (M32 : Int))) % (M32 : Int) := by
    simp [sub32, Int.natCast_mod, Int.ofNat_sub hle]
  rw [this]
  simp only [M32]
  omega

theorem foldl_add32 (f : Nat → Nat) :
    ∀ (l : List Nat) (a : Nat), a < M32 →
      l.foldl (fun acc i => add32 acc (f i)) a = (a + (l.map f).sum) % M32
  | [], a, ha => by simp [Nat.mod_eq_of_lt ha]
  | i :: t, a, ha => by
    have ih := foldl_add32 f t (add32 a (f i)) (add32_lt a (f i))
    simp only [List.foldl_cons, List.map_cons, List.sum_cons] at ih ⊢
    rw [ih, add32, Nat.mod_add_mod, Nat.add_assoc]

theorem foldl_sub32_int :
    ∀ (l : List Nat) (a : Nat), a < M32 →
      ((l.foldl sub32 a : Nat) : Int) = ((a : Int) - (l.sum : Int)) % (M32 : Int)
  | [], a, ha => by
    have : ((a : Int) % (M32 : Int)) = (a : Int) :=
      Int.emod_eq_of_lt (Int.ofNat_nonneg a) (by exact_mod_cast ha)
    simp [this]
  | i :: t, a, ha => by
    have ih := foldl_sub32_int t (sub32 a i) (sub32_lt a i)
    simp only [List.foldl_cons, List.sum_cons] at ih ⊢
    rw [ih, sub32_int]
    push_cast
    simp only [M32]
    omega

theorem iSum1_eq (w idx : Nat) : iSum1 w idx = (idx + 1 + gaussSum w) % M32 := by
  have h := foldl_add32 (fun i => i) (List.range w) ((idx + 1) % M32)
    (Nat.mod_lt _ M32_pos)
  simp only [List.map_id_fun', id] at h
  have : (List.range w).foldl add32 ((idx + 1) % M32)
      = (List.range w).foldl (fun acc i => add32 acc i) ((idx + 1) % M32) := rfl
  rw [iSum1, this, h, Nat.mod_add_mod, gaussSum]

theorem iSum2_int (w idx : Nat) :
    ((iSum2 w idx : Nat) : Int) = ((idx : Int) - (gaussSum w : Int)) % (M32 : Int) := by
  have h := foldl_sub32_int (List.range w) (idx % M32) (Nat.mod_lt _ M32_pos)
  rw [iSum2, h, gaussSum]
  push_cast
  simp only [M32]
  omega

end Alpaka

namespace Alpaka

/-! ### Helper lemmas: the barrier-separated phases -/

theorem sharedAfterMirror_mod (n w j : Nat) (hj : j < n) :
    sharedAfterMirror n w j = n % M32 := by
  have hcast : ((sharedAfterMirror n w j : Nat) : Int) = ((n : Nat) : Int) % (M32 : Int) := by
    have hsub : (((n - 1 - j : Nat) : Nat) : Int) = (n : Int) - 1 - (j : Int) := by
      omega
    rw [sharedAfterMirror, sharedAfterWrite, add32_int, iSum1_eq, iSum2_int, hsub]
    push_cast
    simp only [M32]
    omega
  exact_mod_cast hcast.trans (Int.natCast_mod n M32).symm

theorem sharedAfterMirror_lt (n w j : Nat) : sharedAfterMirror n w j < M32 :=
  add32_lt _ _

theorem atomicAccum_of_perm (shared : Nat → Nat) {order units : List Nat}
    (hperm : order.Perm units) (h0 : shared 0 < M32) :
    atomicAccum shared order = (shared 0 + (units.map shared).sum) % M32 := by
  rw [atomicAccum, foldl_add32 shared order (shared 0) h0,
    ((hperm.map shared).sum_eq : (order.map shared).sum = (units.map shared).sum)]

theorem map_atomicUnits_mirror (n w : Nat) :
    ((atomicUnits n).map (sharedAfterMirror n w)).sum = (n - 1) * (n % M32) := by
  have hrepl : (atomicUnits n).map (sharedAfterMirror n w)
      = List.replicate (n - 1) (n % M32) := by
    rw [List.eq_replicate_iff]
    refine ⟨by simp [atomicUnits, List.length_range'], ?_⟩
    intro b hb
    obtain ⟨i, hi, hib⟩ := List.mem_map.mp hb
    obtain ⟨h1, h2⟩ := List.mem_range'_1.mp hi
    rw [← hib, sharedAfterMirror_mod n w i (by omega)]
  rw [hrepl, List.sum_replicate, smul_eq_mul]

theorem atomicPhase_cell0 (n w : Nat) (order : List Nat) (hn : 0 < n)
    (hperm : order.Perm (atomicUnits n)) :
    sharedAfterAtomic n w order 0 = n * n % M32 := by
  have h0 : sharedAfterMirror n w 0 < M32 := sharedAfterMirror_lt n w 0
  have := atomicAccum_of_perm (sharedAfterMirror n w) hperm h0
  rw [sharedAfterAtomic, if_pos rfl, this, map_atomicUnits_mirror,
    sharedAfterMirror_mod n w 0 hn]
  obtain ⟨m, rfl⟩ : ∃ m, n = m + 1 := ⟨n - 1, by omega⟩
  have hsplit : (m + 1) % M32 + (m + 1 - 1) * ((m + 1) % M32)
      = (m + 1) * ((m + 1) % M32) := by
    rw [Nat.add_sub_cancel]
    ring
  rw [hsplit]
  conv_lhs => rw [Nat.mul_mod]
  conv_rhs => rw [Nat.mul_mod]
  rw [Nat.mod_mod_of_dvd (m + 1) dvd_rfl]

end Alpaka

namespace Alpaka

theorem atomicAddOnes_eq (order : List Nat) : atomicAddOnes order = order.length % M32 := by
  have h := foldl_add32 (fun _ => 1) order 0 M32_pos
  rw [atomicAddOnes, h, List.map_const', List.sum_replicate, smul_eq_mul,
    Nat.mul_one, Nat.zero_add]

/-! ### Helper lemmas: unit enumeration and linearization -/

theorem map_add_range (s n : Nat) :
    (List.range n).map (fun x => x + s) = List.range' s n := by
  rw [List.range'_eq_map_range]
  exact List.map_congr_left (fun x _ => Nat.add_comm x s)

theorem flatMap_range' (m : Nat) :
    ∀ (n : Nat) (s : Nat),
      (List.range n).flatMap (fun i => List.range' (s + m * i) m) = List.range' s (n * m)
  | 0, s => by simp
  | n + 1, s => by
    rw [List.range_succ, List.flatMap_append, flatMap_range' m n s]
    simp only [List.flatMap_cons, List.flatMap_nil, List.append_nil]
    rw [Nat.mul_comm m n]
    have happ := List.range'_append s (n * m) m 1
    simp only [Nat.one_mul] at happ
    rw [happ]
    congr 1
    ring

theorem enum_map_linear (ext : Vec3) :
    (enumCoords ext).map (linearIdx ext) = List.range ext.prod := by
  rw [enumCoords, List.map_flatMap]
  have hinner : ∀ z y : Nat,
      (List.map (linearIdx ext) (List.map (fun x => Vec3.mk x y z) (List.range ext.x)))
        = List.range' (ext.x * ext.y * z + ext.x * y) ext.x := by
    intro z y
    rw [List.map_map]
    have : (linearIdx ext ∘ fun x => Vec3.mk x y z)
        = fun x => x + (ext.x * ext.y * z + ext.x * y) := by
      funext x
      simp only [Function.comp, linearIdx]
      ring
    rw [this, map_add_range]
  have hmid : ∀ z : Nat,
      ((List.range ext.y).flatMap (fun y =>
        List.map (linearIdx ext) (List.map (fun x => Vec3.mk x y z) (List.range ext.x))))
        = List.range' (ext.x * ext.y * z) (ext.y * ext.x) := by
    intro z
    have : (fun y => List.map (linearIdx ext)
          (List.map (fun x => Vec3.mk x y z) (List.range ext.x)))
        = fun y => List.range' (ext.x * ext.y * z + ext.x * y) ext.x := by
      funext y
      exact hinner z y
    rw [this]
    exact flatMap_range' ext.x ext.y (ext.x * ext.y * z)
  have houter : (fun z => ((List.range ext.y).flatMap (fun y =>
        List.map (linearIdx ext) (List.map (fun x => Vec3.mk x y z) (List.range ext.x)))))
      = fun z => List.range' (0 + ext.x * ext.y * z) (ext.x * ext.y) := by
    funext z
    rw [hmid z, Nat.zero_add, Nat.mul_comm ext.y ext.x]
  simp only [List.map_flatMap] at houter ⊢
  rw [houter, flatMap_range' (ext.x * ext.y) ext.z 0, List.range_eq_range', Vec3.prod]
  ring_nf

theorem enum_length (ext : Vec3) : (enumCoords ext).length = ext.prod := by
  have h := congrArg List.length (enum_map_linear ext)
  simpa using h

theorem enum_nodup (ext : Vec3) : (enumCoords ext).Nodup := by
  have h : ((enumCoords ext).map (linearIdx ext)).Nodup := by
    rw [enum_map_linear]
    exact List.nodup_range ext.prod
  exact List.Nodup.of_map _ h

theorem enum_mem (ext c : Vec3) (hx : c.x < ext.x) (hy : c.y < ext.y)
    (hz : c.z < ext.z) : c ∈ enumCoords ext := by
  rw [enumCoords]
  refine List.mem_flatMap.mpr ⟨c.z, List.mem_range.mpr hz, ?_⟩
  refine List.mem_flatMap.mpr ⟨c.y, List.mem_range.mpr hy, ?_⟩
  exact List.mem_map.mpr ⟨c.x, List.mem_range.mpr hx, rfl⟩

theorem enum_count (ext c : Vec3) (hx : c.x < ext.x) (hy : c.y < ext.y)
    (hz : c.z < ext.z) : List.count c (enumCoords ext) = 1 :=
  List.count_eq_one_of_mem (enum_nodup ext) (enum_mem ext c hx hy hz)

end Alpaka

namespace Alpaka

theorem blockRetVal_eq (n w mult mult2 : Nat) (order : List Nat) (hn : 0 < n)
    (hperm : order.Perm (atomicUnits n)) :
    blockRetVal n w mult mult2 order = uiCorrectResult n mult mult2 := by
  rw [blockRetVal, atomicPhase_cell0 n w order hn hperm, uiCorrectResult]

theorem sum_range_mirror (n w : Nat) :
    ((List.range n).map (sharedAfterMirror n w)).sum = n * (n % M32) := by
  have hrepl : (List.range n).map (sharedAfterMirror n w)
      = List.replicate n (n % M32) := by
    rw [List.eq_replicate_iff]
    refine ⟨by simp, ?_⟩
    intro b hb
    obtain ⟨i, hi, hib⟩ := List.mem_map.mp hb
    rw [← hib, sharedAfterMirror_mod n w i (List.mem_range.mp hi)]
  rw [hrepl, List.sum_replicate, smul_eq_mul]

/-! ### The claims -/

/-- C1: for every grid of `g` blocks of `n` units each, after `execute` of
`ExampleAcceleratedKernel` completes and the result buffer is copied back to
the host, `vuiBlockRetVals[b]` equals
`uiNumKernelsInBlock^2 * m_uiMult * uiMult2` (`m_uiMult = 42`,
`uiMult2 = 5`) for every block `b`, whatever interleaving each block's
atomic phase took, so the host-side check of main.cpp line 200 succeeds for
every block; the copy-back observes the kernel's writes because copy
serializes with kernel completion. -/
theorem claim1_execute_copyback_correct (g n w : Nat) (orders : Nat → List Nat)
    (hn : 0 < n) (hords : ∀ b, b < g → (orders b).Perm (atomicUnits n)) :
    (∀ b, b < g →
      (pipelineHostResult g n w 42 5 orders).getD b 0 = uiCorrectResult n 42 5) ∧
    resultCorrect (pipelineHostResult g n w 42 5 orders)
      (uiCorrectResult n 42 5) = true := by
  have hval : ∀ b, b < g →
      accAfterExecute g n w 42 5 orders (accAfterH2A (hostInit g)) b
        = uiCorrectResult n 42 5 := by
    intro b hb
    rw [accAfterExecute, if_pos hb, blockRetVal_eq n w 42 5 (orders b) hn (hords b hb)]
  constructor
  · intro b hb
    rw [pipelineHostResult, hostAfterCopyBack, List.getD_eq_getElem?_getD,
      List.getElem?_map, List.getElem?_range hb]
    simpa using hval b hb
  · rw [pipelineHostResult, hostAfterCopyBack, resultCorrect, List.all_eq_true]
    intro v hv
    obtain ⟨b, hb, hbv⟩ := List.mem_map.mp hv
    rw [← hbv, hval b (List.mem_range.mp hb)]
    exact beq_self_eq_true _

/-- Witness for C1: a grid of 3 blocks of 8 units, each block's atomic
phase in unit order. -/
theorem claim1_witness :
    (∀ b, b < 3 →
      (pipelineHostResult 3 8 100 42 5 (fun _ => atomicUnits 8)).getD b 0
        = uiCorrectResult 8 42 5) ∧
    resultCorrect (pipelineHostResult 3 8 100 42 5 (fun _ => atomicUnits 8))
      (uiCorrectResult 8 42 5) = true :=
  claim1_execute_copyback_correct 3 8 100 (fun _ => atomicUnits 8) (by decide)
    (fun _ _ => List.Perm.refl _)

/-- C2: for every block size `n` (any `n < 2^32`, covering 1..1024) and
every value `w` of `TuiNumUselessWork`, the first phase writes
`(j+1) + sum(0..w-1)` (mod `2^32`) to cell `j`, and after the kernel's
second `syncBlockKernels` barrier every cell `j < n` of the extern shared
region equals `n` exactly, each cell completed by its mirror unit. -/
theorem claim2_barrier_mirror_fill (n w j : Nat) (hn : n < M32) (hj : j < n) :
    sharedAfterWrite w j = (j + 1 + gaussSum w) % M32 ∧
    sharedAfterMirror n w j = n := by
  refine ⟨iSum1_eq w j, ?_⟩
  rw [sharedAfterMirror_mod n w j hj, Nat.mod_eq_of_lt hn]

/-- Witness for C2: block size 8, `TuiNumUselessWork = 100`, cell 3. -/
theorem claim2_witness :
    sharedAfterWrite 100 3 = (3 + 1 + gaussSum 100) % M32 ∧
    sharedAfterMirror 8 100 3 = 8 :=
  claim2_barrier_mirror_fill 8 100 3 (by decide) (by decide)

end Alpaka

namespace Alpaka

/-- C3: atomic accumulation is exact and order-independent. When every unit
with linear index `idx > 0` atomically adds `pBlockShared[idx]` into
`pBlockShared[0]`, then after the following barrier `pBlockShared[0]` equals
the `uint32` sum of all `n` cells — `n * n` (mod `2^32`) since each cell
holds `n` — for every interleaving (permutation) of the atomic operations;
and `n` units each atomically adding 1 to a zero cell yield exactly `n`, for
`n` in {1, 2, 16, 256}, in every operation order. -/
theorem claim3_atomic_accumulation (n w : Nat) (order : List Nat) (hn : 0 < n)
    (hperm : order.Perm (atomicUnits n)) :
    sharedAfterAtomic n w order 0
        = ((List.range n).map (sharedAfterMirror n w)).sum % M32 ∧
    sharedAfterAtomic n w order 0 = n * n % M32 ∧
    (∀ ord : List Nat, ord.Perm (List.range 1) → atomicAddOnes ord = 1) ∧
    (∀ ord : List Nat, ord.Perm (List.range 2) → atomicAddOnes ord = 2) ∧
    (∀ ord : List Nat, ord.Perm (List.range 16) → atomicAddOnes ord = 16) ∧
    (∀ ord : List Nat, ord.Perm (List.range 256) → atomicAddOnes ord = 256) := by
  have hcell := atomicPhase_cell0 n w order hn hperm
  have hones : ∀ (m : Nat) (ord : List Nat), m < M32 → ord.Perm (List.range m) →
      atomicAddOnes ord = m := by
    intro m ord hm hp
    rw [atomicAddOnes_eq, hp.length_eq, List.length_range, Nat.mod_eq_of_lt hm]
  refine ⟨?_, hcell, fun ord h => hones 1 ord (by decide) h,
    fun ord h => hones 2 ord (by decide) h, fun ord h => hones 16 ord (by decide) h,
    fun ord h => hones 256 ord (by decide) h⟩
  rw [hcell, sum_range_mirror, Nat.mul_mod_mod]

/-- Witness for C3: a block of 4 units, `TuiNumUselessWork = 7`, the atomic
operations interleaved in the order 3, 1, 2. -/
theorem claim3_witness :
    sharedAfterAtomic 4 7 [3, 1, 2] 0
        = ((List.range 4).map (sharedAfterMirror 4 7)).sum % M32 ∧
    sharedAfterAtomic 4 7 [3, 1, 2] 0 = 4 * 4 % M32 ∧
    (∀ ord : List Nat, ord.Perm (List.range 1) → atomicAddOnes ord = 1) ∧
    (∀ ord : List Nat, ord.Perm (List.range 2) → atomicAddOnes ord = 2) ∧
    (∀ ord : List Nat, ord.Perm (List.range 16) → atomicAddOnes ord = 16) ∧
    (∀ ord : List Nat, ord.Perm (List.range 256) → atomicAddOnes ord = 256) :=
  claim3_atomic_accumulation 4 7 [3, 1, 2] (by decide) (by decide)

/-- C4: unit enumeration and linearization form a bijection: the Executor's
enumeration of unit coordinates, linearized row-major, is exactly
`[0, blockSize)` with no repeats; every coordinate in `[0, blockExtent)` is
visited exactly once; and for block extent (4,4,2) the unit count is 32 and
the linear indices span exactly `[0, 31]`. -/
theorem claim4_unit_enumeration (ext : Vec3) :
    (enumCoords ext).map (linearIdx ext) = List.range ext.prod ∧
    (enumCoords ext).length = ext.prod ∧
    (∀ c : Vec3, c.x < ext.x → c.y < ext.y → c.z < ext.z →
      List.count c (enumCoords ext) = 1) ∧
    (Vec3.mk 4 4 2).prod = 32 ∧
    (enumCoords (Vec3.mk 4 4 2)).map (linearIdx (Vec3.mk 4 4 2))
      = List.range 32 := by
  refine ⟨enum_map_linear ext, enum_length ext,
    fun c hx hy hz => enum_count ext c hx hy hz, by decide, ?_⟩
  have h := enum_map_linear (Vec3.mk 4 4 2)
  simpa [Vec3.prod] using h

/-- Witness for C4: the coordinate (1, 2, 1) of the (4,4,2) block is
enumerated exactly once. -/
theorem claim4_witness :
    List.count (Vec3.mk 1 2 1) (enumCoords (Vec3.mk 4 4 2)) = 1 :=
  (claim4_unit_enumeration (Vec3.mk 4 4 2)).2.2.1 (Vec3.mk 1 2 1)
    (by decide) (by decide) (by decide)

/-- C5: the memory round-trip is the identity on byte content: for a host
buffer of `n` bytes, `memAlloc` on the accelerator space, `memCopy`
host-to-accelerator, then `memCopy` accelerator-to-host of the same
`sizeBytes` succeed and reproduce the original host byte content exactly. -/
theorem claim5_memory_roundtrip (host : MemoryBuffer) (n : Nat)
    (hLen : host.bytes.length = n) :
    ∃ accBuf hostBack : MemoryBuffer,
      memCopy (memAlloc MemorySpace.Accelerator n) host n = Except.ok accBuf ∧
      memCopy host accBuf n = Except.ok hostBack ∧
      hostBack.bytes = host.bytes ∧ hostBack.space = host.space := by
  refine ⟨⟨MemorySpace.Accelerator, host.bytes⟩, ⟨host.space, host.bytes⟩,
    ?_, ?_, rfl, rfl⟩
  · simp [memCopy, memAlloc, hLen]
  · simp [memCopy, hLen]

/-- Witness for C5: a 3-byte host buffer holding bytes 9, 8, 7. -/
theorem claim5_witness :
    ∃ accBuf hostBack : MemoryBuffer,
      memCopy (memAlloc MemorySpace.Accelerator 3)
        (MemoryBuffer.mk MemorySpace.Host [9, 8, 7]) 3 = Except.ok accBuf ∧
      memCopy (MemoryBuffer.mk MemorySpace.Host [9, 8, 7]) accBuf 3
        = Except.ok hostBack ∧
      hostBack.bytes = (MemoryBuffer.mk MemorySpace.Host [9, 8, 7]).bytes ∧
      hostBack.space = (MemoryBuffer.mk MemorySpace.Host [9, 8, 7]).space :=
  claim5_memory_roundtrip (MemoryBuffer.mk MemorySpace.Host [9, 8, 7]) 3 (by decide)

end Alpaka

namespace Alpaka

/-- C6: the shared-memory size query for `ExampleAcceleratedKernel` is a
pure function of the block extent: it returns
`blockExtent.prod() * sizeof(uint32_t)` for every extent, ignores all extra
arguments, and sizes the extern shared region at exactly one `uint32_t` per
enumerated unit of the block. -/
theorem claim6_shared_extern_size (v : Vec3) (args args2 : List Nat) :
    getBlockSharedExternMemSizeBytes v args = v.prod * 4 ∧
    getBlockSharedExternMemSizeBytes v args
      = getBlockSharedExternMemSizeBytes v args2 ∧
    getBlockSharedExternMemSizeBytes v args = (enumCoords v).length * 4 := by
  refine ⟨rfl, rfl, ?_⟩
  rw [enum_length]
  rfl

/-- C7: every error surfaces synchronously and none is silently swallowed:
`main` returns 0 exactly when no exception propagates; a propagated
exception is printed and yields return code 1 with no retry; and an execute
failure reports the failing block/unit coordinate and the kernel-body fault,
which are recoverable exactly from the error value. -/
theorem claim7_error_propagation :
    (∀ o : Except AlpakaError Unit,
      (mainRun o).1 = 0 ↔ ∃ u, o = Except.ok u) ∧
    (∀ e : AlpakaError, mainRun (Except.error e) = (1, some (errorMessage e))) ∧
    (∀ b u : Vec3, ∀ m : String,
      failureReport (AlpakaError.KernelExecutionFailed b u m) = some (b, u, m)) ∧
    (∀ b u b2 u2 : Vec3, ∀ m m2 : String,
      AlpakaError.KernelExecutionFailed b u m
          = AlpakaError.KernelExecutionFailed b2 u2 m2 →
        b = b2 ∧ u = u2 ∧ m = m2) := by
  refine ⟨fun o => ?_, fun e => rfl, fun b u m => rfl,
    fun b u b2 u2 m m2 h => ?_⟩
  · cases o with
    | ok u => simp [mainRun]
    | error e => simp [mainRun]
  · injection h with h1 h2 h3
    exact ⟨h1, h2, h3⟩

/-- Witness for C7: a kernel failure at block (1,0,0), unit (3,0,0)
determines its reported coordinates. -/
theorem claim7_witness :
    Vec3.mk 1 0 0 = Vec3.mk 1 0 0 ∧ Vec3.mk 3 0 0 = Vec3.mk 3 0 0 ∧
      "fault" = "fault" :=
  claim7_error_propagation.2.2.2 (Vec3.mk 1 0 0) (Vec3.mk 3 0 0)
    (Vec3.mk 1 0 0) (Vec3.mk 3 0 0) "fault" "fault" rfl

/-- C8: the `DevProps` record consists of exactly the six data fields name,
multiprocessor count, max kernels per block, max block extent, max grid
extent and global memory size: converting to the six-tuple and back is the
identity in both directions, and the six fields determine the record. It
carries no shared-memory-size or clock-frequency field (those are commented
out in the C++ source). -/
theorem claim8_devprops_fields :
    (∀ p : DevProps, DevProps.ofTuple (DevProps.toTuple p) = p) ∧
    (∀ t : String × Nat × Nat × Vec3 × Vec3 × Nat,
      DevProps.toTuple (DevProps.ofTuple t) = t) ∧
    (∀ p q : DevProps, DevProps.toTuple p = DevProps.toTuple q → p = q) := by
  refine ⟨fun p => rfl, fun t => rfl, fun p q h => ?_⟩
  have h2 : DevProps.ofTuple (DevProps.toTuple p)
      = DevProps.ofTuple (DevProps.toTuple q) := congrArg DevProps.ofTuple h
  exact h2

/-- Witness for C8: two concrete equal-field records are equal. -/
theorem claim8_witness :
    DevProps.mk "dev" 2 512 (Vec3.mk 16 16 2) (Vec3.mk 16 8 4) 1024
      = DevProps.mk "dev" 2 512 (Vec3.mk 16 16 2) (Vec3.mk 16 8 4) 1024 :=
  claim8_devprops_fields.2.2
    (DevProps.mk "dev" 2 512 (Vec3.mk 16 16 2) (Vec3.mk 16 8 4) 1024)
    (DevProps.mk "dev" 2 512 (Vec3.mk 16 16 2) (Vec3.mk 16 8 4) 1024) rfl

/-- C9: the kernel's result is independent of `TuiNumUselessWork` despite
unsigned underflow: `iSum2` is computed modulo `2^32` (wrapping whenever
`idx < sum(0..w-1)`), the contributions of `iSum1` and `iSum2` to the
mirror cell cancel exactly modulo `2^32`, and so every shared cell after
the second barrier and the final per-block output are the same for every
value `w` of `TuiNumUselessWork`. -/
theorem claim9_uselesswork_independence (n w w2 j mult mult2 : Nat)
    (order : List Nat) (hj : j < n) (hperm : order.Perm (atomicUnits n)) :
    ((iSum2 w j : Nat) : Int) = ((j : Int) - (gaussSum w : Int)) % (M32 : Int) ∧
    sharedAfterMirror n w j = sharedAfterMirror n w2 j ∧
    blockRetVal n w mult mult2 order = blockRetVal n w2 mult mult2 order := by
  have hn : 0 < n := Nat.pos_of_ne_zero (by omega)
  refine ⟨iSum2_int w j, ?_, ?_⟩
  · rw [sharedAfterMirror_mod n w j hj, sharedAfterMirror_mod n w2 j hj]
  · rw [blockRetVal, blockRetVal, atomicPhase_cell0 n w order hn hperm,
      atomicPhase_cell0 n w2 order hn hperm]

/-- Witness for C9: block of 8 units, `TuiNumUselessWork` 100 vs 0,
cell 3, multipliers 42 and 5. -/
theorem claim9_witness :
    ((iSum2 100 3 : Nat) : Int)
        = ((3 : Int) - (gaussSum 100 : Int)) % (M32 : Int) ∧
    sharedAfterMirror 8 100 3 = sharedAfterMirror 8 0 3 ∧
    blockRetVal 8 100 42 5 (atomicUnits 8) = blockRetVal 8 0 42 5 (atomicUnits 8) :=
  claim9_uselesswork_independence 8 100 0 3 42 5 (atomicUnits 8) (by decide)
    (List.Perm.refl _)

/-- C10: frame property of the kernel on global memory: within each block
only the unit with linear index 0 writes to accelerator-global memory, and
it writes exactly one element, `puiBlockRetVals[bId]`; every other element
is left unchanged by the block, and units with linear index > 0 perform no
global-memory write at all. -/
theorem claim10_global_frame (n w mult mult2 bId : Nat) (order : List Nat)
    (g0 : Nat → Nat) :
    (∀ idx, idx ≠ 0 → globalWrites n w mult mult2 bId idx order = [] ∧
      applyWrites g0 (globalWrites n w mult mult2 bId idx order) = g0) ∧
    globalWrites n w mult mult2 bId 0 order
      = [(bId, blockRetVal n w mult mult2 order)] ∧
    (∀ i, i ≠ bId →
      applyWrites g0 (globalWrites n w mult mult2 bId 0 order) i = g0 i) ∧
    applyWrites g0 (globalWrites n w mult mult2 bId 0 order) bId
      = blockRetVal n w mult mult2 order := by
  refine ⟨fun idx hidx => ?_, rfl, fun i hi => ?_, ?_⟩
  · rw [globalWrites, if_neg hidx]
    exact ⟨rfl, rfl⟩
  · rw [globalWrites, if_pos rfl, applyWrites, applyWrites, if_neg hi]
  · rw [globalWrites, if_pos rfl, applyWrites, applyWrites, if_pos rfl]

/-- Witness for C10: block of 2 units, block id 7, in a zeroed global
memory: unit 3 writes nothing, and index 5 is untouched by the master's
store. -/
theorem claim10_witness :
    (globalWrites 2 0 42 5 7 3 [1] = [] ∧
      applyWrites (fun _ => 0) (globalWrites 2 0 42 5 7 3 [1]) = (fun _ => 0)) ∧
    applyWrites (fun _ => 0) (globalWrites 2 0 42 5 7 0 [1]) 5 = (fun _ => (0 : Nat)) 5 :=
  ⟨(claim10_global_frame 2 0 42 5 7 [1] (fun _ => 0)).1 3 (by decide),
   (claim10_global_frame 2 0 42 5 7 [1] (fun _ => 0)).2.2.1 5 (by decide)⟩

end Alpaka
